import Mathlib

/-
Verification of the backend-stub code generator
(`tools/codegen/gen_backend_stubs.py`).

The file shallowly embeds the generator pipeline:
  * `OperatorName` with its text-form parse/format,
  * the schema model (`NativeFunction`, `NativeFunctionsGroup`) and the
    external-backend view (`ExternalBackendMetadata`,
    `ExternalBackendFunction`, `ExternalBackendFunctionsGroup`),
  * a small universe of YAML values (the result of the external
    `yaml.load` collaborator),
  * `parse_backend_yaml` and `main`, translated statement by statement
    from `gen_backend_stubs.py`, with Python dictionaries embedded as
    association lists with insert-or-overwrite semantics (preserving
    Python's key insertion order), Python exceptions embedded as
    `Except GenError`, and the file-writing collaborator embedded as a
    returned list of `OutputFile` values,
  * the codegen target dispatcher (`compute_native_function_declaration`,
    `GenExternalAtenFallback`), modelled from the spec because
    `tools/codegen/dest` is not part of the sources.

Strings are embedded as `List Char` throughout.
-/

universe u v

/-- Lookup in an association list; embeds Python's `d[k]` / `d.get(k)`. -/
def alookup {α : Type u} {β : Type v} [DecidableEq α] : List (α × β) → α → Option β
  | [], _ => none
  | (k, v) :: rest, k2 => if k = k2 then some v else alookup rest k2

/-- Insert-or-overwrite in an association list; embeds Python's
`d[k] = v`: an existing key keeps its position and gets the new value,
a new key is appended at the end, exactly as in an insertion-ordered
Python dictionary. -/
def dinsert {α : Type u} {β : Type v} [DecidableEq α] (k : α) (v : β) :
    List (α × β) → List (α × β)
  | [] => [(k, v)]
  | (k2, v2) :: rest =>
      if k2 = k then (k, v) :: rest else (k2, v2) :: dinsert k v rest

/-- Translation of `tools.codegen.utils.concatMap` (flat map, order
preserving). -/
def concatMap {α : Type u} {β : Type v} (f : α → List β) (xs : List α) : List β :=
  (xs.map f).flatten

/-- True exactly on `Except.ok` results. -/
def okBool {ε : Type u} {α : Type v} : Except ε α → Bool
  | .ok _ => true
  | .error _ => false

theorem alookup_dinsert_self {α : Type u} {β : Type v} [DecidableEq α]
    (k : α) (v : β) (l : List (α × β)) :
    alookup (dinsert k v l) k = some v := by
  induction l with
  | nil => simp [dinsert, alookup]
  | cons p rest ih =>
      obtain ⟨k2, v2⟩ := p
      by_cases h : k2 = k
      · simp [dinsert, h, alookup]
      · simp [dinsert, h, alookup, ih]

theorem alookup_dinsert_ne {α : Type u} {β : Type v} [DecidableEq α]
    {k k2 : α} (v : β) (l : List (α × β)) (h : k2 ≠ k) :
    alookup (dinsert k v l) k2 = alookup l k2 := by
  induction l with
  | nil =>
      simp [dinsert, alookup, Ne.symm h]
  | cons p rest ih =>
      obtain ⟨k3, v3⟩ := p
      by_cases h3 : k3 = k
      · subst h3
        simp [dinsert, alookup, Ne.symm h]
      · simp [dinsert, h3, alookup, ih]

theorem mem_dinsert {α : Type u} {β : Type v} [DecidableEq α]
    {k : α} {v : β} {l : List (α × β)} {p : α × β}
    (h : p ∈ dinsert k v l) : p = (k, v) ∨ p ∈ l := by
  induction l with
  | nil => simpa [dinsert] using h
  | cons q rest ih =>
      obtain ⟨k2, v2⟩ := q
      by_cases h2 : k2 = k
      · simp [dinsert, h2] at h
        rcases h with h | h
        · exact Or.inl (by simp [h])
        · exact Or.inr (by simp [h])
      · simp [dinsert, h2] at h
        rcases h with h | h
        · exact Or.inr (by simp [h])
        · rcases ih h with h | h
          · exact Or.inl h
          · exact Or.inr (by simp [h])

theorem alookup_mem {α : Type u} {β : Type v} [DecidableEq α]
    {l : List (α × β)} {k : α} {v : β}
    (h : alookup l k = some v) : (k, v) ∈ l := by
  induction l with
  | nil => simp [alookup] at h
  | cons p rest ih =>
      obtain ⟨k2, v2⟩ := p
      by_cases h2 : k2 = k
      · subst h2
        simp [alookup] at h
        simp [h]
      · simp [alookup, h2] at h
        exact List.mem_cons_of_mem _ (ih h)

/-- Modelled from the spec (the `OperatorName` component of
`tools/codegen/model.py` is not among the sources): the canonical
identity of an operator, a namespace, a base name and an optional
overload qualifier, parsed from and formatted to the text form
`namespace::base_name` with an optional `.overload` suffix. -/
structure OperatorName where
  ns : List Char
  base_name : List Char
  overload : Option (List Char)
deriving DecidableEq

/-- Split a character list at the first occurrence of the two-character
separator `::`; `none` when no `::` occurs. -/
def breakOnColons : List Char → Option (List Char × List Char)
  | [] => none
  | c :: rest =>
      if c = ':' ∧ rest.head? = some ':' then some ([], rest.tail)
      else
        match breakOnColons rest with
        | some (a, b) => some (c :: a, b)
        | none => none

/-- Split a character list at the first occurrence of `.`; the second
component is `none` when no `.` occurs. -/
def breakOnDot : List Char → List Char × Option (List Char)
  | [] => ([], none)
  | c :: rest =>
      if c = '.' then ([], some rest)
      else ((c :: (breakOnDot rest).1), (breakOnDot rest).2)

/-- Modelled from the spec: parse the canonical text form
`namespace::base_name[.overload]`; fails (the spec's `ParseError`) when
no `::` separator occurs or the namespace or base name is empty. -/
def OperatorName.parse (t : List Char) : Option OperatorName :=
  match breakOnColons t with
  | none => none
  | some (nsPart, rest) =>
      let basePair := breakOnDot rest
      if nsPart = [] ∨ basePair.1 = [] then none
      else some ⟨nsPart, basePair.1, basePair.2⟩

/-- Modelled from the spec: the canonical text form of an operator name,
`namespace::base_name` followed by `.overload` when the overload is
present. -/
def OperatorName.format (n : OperatorName) : List Char :=
  n.ns ++ ':' :: ':' :: n.base_name ++
    (match n.overload with
     | none => []
     | some ov => '.' :: ov)

theorem breakOnColons_eq {t a b : List Char}
    (h : breakOnColons t = some (a, b)) : t = a ++ ':' :: ':' :: b := by
  induction t generalizing a b with
  | nil => simp [breakOnColons] at h
  | cons c rest ih =>
      rw [breakOnColons] at h
      by_cases hc : c = ':' ∧ rest.head? = some ':'
      · rw [if_pos hc] at h
        obtain ⟨hc1, hc2⟩ := hc
        cases rest with
        | nil => simp at hc2
        | cons d rest2 =>
            simp at hc2
            injection h with h
            injection h with h1 h2
            subst h1 hc1 hc2
            simp at h2
            subst h2
            rfl
      · rw [if_neg hc] at h
        cases hrec : breakOnColons rest with
        | none => rw [hrec] at h; exact absurd h (by simp)
        | some p =>
            obtain ⟨a2, b2⟩ := p
            rw [hrec] at h
            injection h with h
            injection h with h1 h2
            subst h2
            rw [← h1, ih hrec]
            rfl

theorem breakOnDot_eq (t : List Char) :
    t = (breakOnDot t).1 ++
      (match (breakOnDot t).2 with
       | none => []
       | some b => '.' :: b) := by
  induction t with
  | nil => rfl
  | cons c rest ih =>
      rw [breakOnDot]
      by_cases hc : c = '.'
      · subst hc; simp
      · rw [if_neg hc]
        simpa using ih

/-- C8: for every valid operator-name text `t` (one `OperatorName.parse`
accepts), formatting the parsed `OperatorName` reproduces `t` exactly:
the parse/format pair round-trips over the canonical grammar
`namespace::base_name` with an optional `.overload` suffix. -/
theorem claim_C8_roundtrip {t : List Char} {n : OperatorName}
    (h : OperatorName.parse t = some n) : OperatorName.format n = t := by
  rw [OperatorName.parse] at h
  cases hc : breakOnColons t with
  | none => rw [hc] at h; exact absurd h (by simp)
  | some p =>
      obtain ⟨nsPart, rest⟩ := p
      rw [hc] at h
      simp only at h
      by_cases hne : nsPart = [] ∨ (breakOnDot rest).1 = []
      · rw [if_pos hne] at h; exact absurd h (by simp)
      · rw [if_neg hne] at h
        injection h with h
        subst h
        rw [OperatorName.format]
        simp only
        rw [breakOnColons_eq hc]
        have hd := breakOnDot_eq rest
        rw [List.append_assoc]
        congr 1
        simp only [List.cons_append, List.cons.injEq, true_and]
        rw [← hd]

/-- C8 witness: the round-trip theorem applied to the concrete text
`at::add.out`. -/
theorem claim_C8_roundtrip_witness :
    OperatorName.format ⟨['a', 't'], ['a', 'd', 'd'], some ['o', 'u', 't']⟩ =
      ['a', 't', ':', ':', 'a', 'd', 'd', '.', 'o', 'u', 't'] :=
  claim_C8_roundtrip (by decide)

/-- Modelled from the spec (`tools/codegen/model.py` is not among the
sources): the parsed schema of one operator; only the operator name and
an opaque signature text are relevant to this pipeline. -/
structure FunctionSchema where
  name : OperatorName
  signature : List Char
deriving DecidableEq

/-- Modelled from the spec: one canonical-registry operator entry,
carrying its parsed schema; accessed in the generator only through
`func.name`. -/
structure NativeFunction where
  func : FunctionSchema
deriving DecidableEq

/-- Modelled from the spec: the functional, in-place and out-of-place
schema variants of one logical operation, each slot optional with at
least one present (the invariant is kept outside the structure). -/
structure NativeFunctionsGroup where
  functional : Option NativeFunction
  inplace : Option NativeFunction
  out : Option NativeFunction
deriving DecidableEq

/-- Present variants of a group, functional first; translation of
`NativeFunctionsGroup.functions()`. -/
def NativeFunctionsGroup.functions (g : NativeFunctionsGroup) : List NativeFunction :=
  g.functional.toList ++ g.inplace.toList ++ g.out.toList

/-- A canonical-registry entry: the `Union[NativeFunction,
NativeFunctionsGroup]` of the source, as a tagged sum. -/
inductive RegistryEntry where
  | function (f : NativeFunction)
  | group (g : NativeFunctionsGroup)
deriving DecidableEq

/-- A universe of YAML values, the possible results of the external
`yaml.load` collaborator: strings, lists, string-keyed mappings,
integers, booleans and null. -/
inductive YamlVal where
  | str (s : List Char)
  | list (xs : List YamlVal)
  | map (kvs : List (List Char × YamlVal))
  | int (n : Int)
  | bool (b : Bool)
  | null

/-- Whether a YAML value is a mapping (Python `isinstance(v, dict)`). -/
def YamlVal.isMap : YamlVal → Bool
  | .map _ => true
  | _ => false

/-- Modelled from the spec: one backend declaration of support for one
operator. The `backend` field holds the raw value of the declaration's
`backend` YAML field, exactly as the source stores it without shape
validation. -/
structure ExternalBackendMetadata where
  operator : OperatorName
  backend : YamlVal
  is_autograd : Bool

/-- Modelled from the spec: a registry operator annotated with the
backend's metadata, `none` when the backend did not declare support. -/
structure ExternalBackendFunction where
  native : NativeFunction
  metadata : Option ExternalBackendMetadata

/-- Modelled from the spec: the external-backend view of a variant
group, mirroring `NativeFunctionsGroup`'s slots. -/
structure ExternalBackendFunctionsGroup where
  functional : Option ExternalBackendFunction
  inplace : Option ExternalBackendFunction
  out : Option ExternalBackendFunction

/-- Present variants of an external group, functional first. -/
def ExternalBackendFunctionsGroup.functions
    (g : ExternalBackendFunctionsGroup) : List ExternalBackendFunction :=
  g.functional.toList ++ g.inplace.toList ++ g.out.toList

/-- A resolved entry: the `Union[ExternalBackendFunction,
ExternalBackendFunctionsGroup]` of the source, as a tagged sum. -/
inductive ExternalEntry where
  | function (f : ExternalBackendFunction)
  | group (g : ExternalBackendFunctionsGroup)

/-- The fatal failures of the generator, as one error type: the
`assert isinstance(yaml_values, dict)` failure, a missing required
field (Python `KeyError`, the spec's `MalformedDeclarationError`), a
non-iterable operator list or a non-string operator entry (Python
`TypeError`/`AttributeError`), an unparsable operator-name text (the
spec's `ParseError`), and a declared operator absent from the canonical
registry (the spec's `UnknownOperatorError`, raised by the source as an
`AssertionError` naming the operator). -/
inductive GenError where
  | assertionNotDict
  | malformedDeclaration (field : List Char)
  | typeErrorNotIterable
  | typeErrorNotString
  | parseError (text : List Char)
  | unknownOperator (op : OperatorName)

/-- Key `cpp_namespace` of the backend declaration. -/
def cppNamespaceKey : List Char :=
  ['c', 'p', 'p', '_', 'n', 'a', 'm', 'e', 's', 'p', 'a', 'c', 'e']

/-- Key `backend` of the backend declaration. -/
def backendKey : List Char := ['b', 'a', 'c', 'k', 'e', 'n', 'd']

/-- Key `supported` of the backend declaration. -/
def supportedKey : List Char := ['s', 'u', 'p', 'p', 'o', 'r', 't', 'e', 'd']

/-- Key `autograd` of the backend declaration. -/
def autogradKey : List Char := ['a', 'u', 't', 'o', 'g', 'r', 'a', 'd']

/-- Python `yaml_values[k]`: the value at a required key, `KeyError`
(embedded as the spec's `MalformedDeclarationError` naming the field)
when the key is absent. -/
def yget (kvs : List (List Char × YamlVal)) (k : List Char) : Except GenError YamlVal :=
  match alookup kvs k with
  | some v => .ok v
  | none => .error (.malformedDeclaration k)

/-- Python iteration `for op in v`: a list yields its elements, a
string yields its characters as one-character strings, a mapping
yields its keys; other values are not iterable (`TypeError`). -/
def iterElems : YamlVal → Except GenError (List YamlVal)
  | .list xs => .ok xs
  | .str s => .ok (s.map fun c => .str [c])
  | .map kvs => .ok (kvs.map fun kv => .str kv.1)
  | _ => .error .typeErrorNotIterable

/-- Python `OperatorName.parse(op)` applied to a YAML value: only a
string can be parsed (a non-string fails as in Python with an
attribute/type error), and an unparsable string fails with the spec's
`ParseError`. -/
def parseOpYaml : YamlVal → Except GenError OperatorName
  | .str s =>
      match OperatorName.parse s with
      | some n => .ok n
      | none => .error (.parseError s)
  | _ => .error .typeErrorNotString

/-- A metadata mapping `OperatorName → ExternalBackendMetadata`,
embedded as an insertion-ordered association list. -/
abbrev MetadataMap : Type := List (OperatorName × ExternalBackendMetadata)

/-- Translation of the two metadata loops of `parse_backend_yaml`
(lines 29 to 36): parse each listed name, build an
`ExternalBackendMetadata` with the given autograd flag and the raw
`backend` value, and insert it keyed by the operator name, overwriting
any earlier entry for the same key. -/
def insertMetadataList (backend : YamlVal) (flag : Bool) :
    List YamlVal → MetadataMap → Except GenError MetadataMap
  | [], metadata => .ok metadata
  | v :: rest, metadata =>
      match parseOpYaml v with
      | .error e => .error e
      | .ok op_name =>
          insertMetadataList backend flag rest
            (dinsert op_name ⟨op_name, backend, flag⟩ metadata)

/-- Translation of the `native_functions_map` dict comprehension
(lines 38 to 41): flatten every group into its constituent functions
plus every standalone function, keyed by operator name, later entries
overwriting earlier ones. -/
def native_functions_map (grouped_native_functions : List RegistryEntry) :
    List (OperatorName × NativeFunction) :=
  (concatMap
    (fun e =>
      match e with
      | .function f => [f]
      | .group g => g.functions)
    grouped_native_functions).foldl
    (fun m f => dinsert f.func.name f m) []

/-- Modelled from the spec (`ExternalBackendFunctionsGroup.from_function_group`
is not among the sources): independently resolve each present variant
of the group against the metadata mapping, keeping the same variant
slots. -/
def ExternalBackendFunctionsGroup.from_function_group
    (g : NativeFunctionsGroup) (metadata : MetadataMap) :
    ExternalBackendFunctionsGroup where
  functional := g.functional.map fun f => ⟨f, alookup metadata f.func.name⟩
  inplace := g.inplace.map fun f => ⟨f, alookup metadata f.func.name⟩
  out := g.out.map fun f => ⟨f, alookup metadata f.func.name⟩

/-- Translation of the inner `native_to_external` (lines 43 to 53): a
standalone function is annotated with `metadata.get(name, None)`; a
group is resolved slot by slot by `from_function_group`. -/
def native_to_external (metadata : MetadataMap) :
    RegistryEntry → ExternalEntry
  | .function f => .function ⟨f, alookup metadata f.func.name⟩
  | .group g => .group (ExternalBackendFunctionsGroup.from_function_group g metadata)

/-- Translation of the validation loop (lines 54 to 56): the first
metadata key, in insertion order, that is absent from
`native_functions_map`; `none` when every key is present. -/
def findInvalidOp (metadata : MetadataMap)
    (nmap : List (OperatorName × NativeFunction)) : Option OperatorName :=
  match metadata with
  | [] => none
  | (k, _) :: rest =>
      if (alookup nmap k).isSome then findInvalidOp rest nmap else some k

/-- The field reads, metadata loops, validation and resolution of
`parse_backend_yaml` after the top-level dict assertion, in the
source's evaluation order (lines 22 to 57). -/
def parseFields (kvs : List (List Char × YamlVal))
    (grouped_native_functions : List RegistryEntry) :
    Except GenError (YamlVal × List ExternalEntry) :=
  (yget kvs cppNamespaceKey).bind fun cpp_namespace =>
  (yget kvs backendKey).bind fun backend =>
  (yget kvs supportedKey).bind fun supported =>
  (yget kvs autogradKey).bind fun supported_autograd =>
  (iterElems supported).bind fun supElems =>
  (insertMetadataList backend false supElems []).bind fun md1 =>
  (iterElems supported_autograd).bind fun autoElems =>
  (insertMetadataList backend true autoElems md1).bind fun metadata =>
  match findInvalidOp metadata (native_functions_map grouped_native_functions) with
  | some op => .error (.unknownOperator op)
  | none =>
      .ok (cpp_namespace,
        grouped_native_functions.map (native_to_external metadata))

/-- Translation of `parse_backend_yaml` (lines 14 to 57), taking the
already-loaded YAML document in place of the file path: assert the
document is a mapping, read the four required fields, build the
metadata mapping from the `supported` and `autograd` lists, validate
every metadata key against `native_functions_map`, and resolve every
registry entry in order. -/
def parse_backend_yaml (yaml_values : YamlVal)
    (grouped_native_functions : List RegistryEntry) :
    Except GenError (YamlVal × List ExternalEntry) :=
  match yaml_values with
  | .map kvs => parseFields kvs grouped_native_functions
  | _ => .error .assertionNotDict

/-- The codegen target selector of `tools.codegen.utils.Target`, the
three targets this generator uses. -/
inductive Target where
  | NAMESPACED_DECLARATION
  | NAMESPACED_DEFINITION
  | REGISTRATION
deriving DecidableEq

/-- A generated text fragment, abstracted to the data the spec says it
encodes: the kind of fragment, the operator it is for and, for a
dispatcher registration, the backend metadata it registers. -/
inductive Fragment where
  | declaration (name : OperatorName)
  | fallbackDeclaration (name : OperatorName)
  | fallbackDefinition (name : OperatorName)
  | registration (name : OperatorName) (m : ExternalBackendMetadata)

/-- Modelled from the spec (`tools/codegen/dest` is not among the
sources): the per-function fragment generator behind
`GenExternalAtenFallback`. The declaration and definition targets
always emit one fragment; the registration target emits one fragment
exactly when the backend declared the operator (non-`None` metadata)
and nothing otherwise. -/
def genUnstructuredExternal (target : Target)
    (f : ExternalBackendFunction) : List Fragment :=
  match target with
  | .NAMESPACED_DECLARATION => [.fallbackDeclaration f.native.func.name]
  | .NAMESPACED_DEFINITION => [.fallbackDefinition f.native.func.name]
  | .REGISTRATION =>
      match f.metadata with
      | some m => [.registration f.native.func.name m]
      | none => []

/-- Modelled from the spec: `dest.GenExternalAtenFallback(target)`
applied to one resolved entry; a group yields the fragments of its
present variants, functional first. -/
def GenExternalAtenFallback (target : Target) : ExternalEntry → List Fragment
  | .function f => genUnstructuredExternal target f
  | .group g => concatMap (genUnstructuredExternal target) g.functions

/-- Modelled from the spec: `dest.compute_native_function_declaration`,
one header declaration per operator regardless of metadata presence,
per present variant for a group. -/
def compute_native_function_declaration : ExternalEntry → List Fragment
  | .function f => [.declaration f.native.func.name]
  | .group g => g.functions.map fun f => .declaration f.native.func.name

/-- Modelled from the spec: whether a resolved function participates in
autograd, `false` when the backend declared no metadata. -/
def ExternalBackendFunction.is_autograd_kernel (f : ExternalBackendFunction) : Bool :=
  match f.metadata with
  | some m => m.is_autograd
  | none => false

/-- Modelled from the spec: a resolved entry's autograd flag; for a
group, true when any present variant participates in autograd (the
spec leaves the group-level flag otherwise unspecified). -/
def ExternalEntry.is_autograd_kernel : ExternalEntry → Bool
  | .function f => f.is_autograd_kernel
  | .group g => g.functions.any fun f => f.is_autograd_kernel

/-- The `dispatch_registrations` fragment list of `main` (lines 105 to
107): registration fragments of the non-autograd entries, in input
order. -/
def dispatch_registrations (external_backend_functions : List ExternalEntry) :
    List Fragment :=
  concatMap (GenExternalAtenFallback .REGISTRATION)
    (external_backend_functions.filter fun e => ! e.is_autograd_kernel)

/-- The `dispatch_autograd_registrations` fragment list of `main`
(lines 108 to 110): registration fragments of the autograd entries, in
input order. -/
def dispatch_autograd_registrations
    (external_backend_functions : List ExternalEntry) : List Fragment :=
  concatMap (GenExternalAtenFallback .REGISTRATION)
    (external_backend_functions.filter fun e => e.is_autograd_kernel)

/-- One artifact handed to the templating collaborator's `fm.write`:
the output file name, the `cpp_namespace` template value and the
fragment lists in the order the source passes them. -/
structure OutputFile where
  filename : List Char
  cpp_namespace : YamlVal
  fragmentLists : List (List Fragment)

/-- Output file name `aten_xla_type.h`. -/
def atenXlaTypeH : List Char :=
  ['a', 't', 'e', 'n', '_', 'x', 'l', 'a', '_', 't', 'y', 'p', 'e', '.', 'h']

/-- Output file name `aten_xla_type_default.h`. -/
def atenXlaTypeDefaultH : List Char :=
  ['a', 't', 'e', 'n', '_', 'x', 'l', 'a', '_', 't', 'y', 'p', 'e', '_',
   'd', 'e', 'f', 'a', 'u', 'l', 't', '.', 'h']

/-- Output file name `aten_xla_type_default.cpp`. -/
def atenXlaTypeDefaultCpp : List Char :=
  ['a', 't', 'e', 'n', '_', 'x', 'l', 'a', '_', 't', 'y', 'p', 'e', '_',
   'd', 'e', 'f', 'a', 'u', 'l', 't', '.', 'c', 'p', 'p']

/-- Translation of `main` (lines 59 to 111), with the command-line and
file-system collaborators abstracted away: the loaded backend
declaration and the grouped registry are the inputs, and the three
`fm.write` calls become the returned artifact list. A failure in
`parse_backend_yaml` propagates before any artifact is produced.
(Named `main_codegen` because Lean reserves `main` for the program
entry point.) -/
def main_codegen (source_yaml : YamlVal)
    (grouped_native_functions : List RegistryEntry) :
    Except GenError (List OutputFile) :=
  match parse_backend_yaml source_yaml grouped_native_functions with
  | .error e => .error e
  | .ok (cpp_namespace, external_backend_functions) =>
      .ok
        [⟨atenXlaTypeH, cpp_namespace,
          [concatMap compute_native_function_declaration external_backend_functions]⟩,
         ⟨atenXlaTypeDefaultH, cpp_namespace,
          [concatMap (GenExternalAtenFallback .NAMESPACED_DECLARATION)
            external_backend_functions]⟩,
         ⟨atenXlaTypeDefaultCpp, cpp_namespace,
          [concatMap (GenExternalAtenFallback .NAMESPACED_DEFINITION)
            external_backend_functions,
           dispatch_registrations external_backend_functions,
           dispatch_autograd_registrations external_backend_functions]⟩]

/-- The artifacts a run actually wrote: all three on success, none on
any failure. -/
def artifacts_written (r : Except GenError (List OutputFile)) : List OutputFile :=
  match r with
  | .ok files => files
  | .error _ => []

theorem ebind_ok {ε : Type u} {α β : Type v} (a : α) (f : α → Except ε β) :
    (Except.ok a : Except ε α).bind f = f a := rfl

theorem ebind_error {ε : Type u} {α β : Type v} (e : ε) (f : α → Except ε β) :
    (Except.error e : Except ε α).bind f = .error e := rfl

theorem okBool_iff {ε : Type u} {α : Type v} (e : Except ε α) :
    okBool e = true ↔ ∃ a, e = .ok a := by
  cases e <;> simp [okBool]

/-- Whether a declared YAML value names an operator of the canonical
registry: true when it parses to a key of the registry map, and
vacuously true when it does not parse at all. -/
def opInRegistry (nmap : List (OperatorName × NativeFunction)) (v : YamlVal) : Bool :=
  match parseOpYaml v with
  | .ok n => (alookup nmap n).isSome
  | .error _ => true

theorem insertMetadataList_ok (backend : YamlVal) (flag : Bool) :
    ∀ (ops : List YamlVal) (acc : MetadataMap),
      (∀ v ∈ ops, okBool (parseOpYaml v) = true) →
      ∃ md, insertMetadataList backend flag ops acc = .ok md := by
  intro ops
  induction ops with
  | nil => exact fun acc _ => ⟨acc, rfl⟩
  | cons v rest ih =>
      intro acc h
      obtain ⟨n, hn⟩ := (okBool_iff _).mp (h v (List.mem_cons_self _ _))
      rw [show insertMetadataList backend flag (v :: rest) acc =
          insertMetadataList backend flag rest
            (dinsert n ⟨n, backend, flag⟩ acc) by
        rw [insertMetadataList, hn]]
      exact ih _ fun w hw => h w (List.mem_cons_of_mem _ hw)

theorem insertMetadataList_lookup (backend : YamlVal) (flag : Bool) :
    ∀ (ops : List YamlVal) (acc md : MetadataMap) (n : OperatorName),
      insertMetadataList backend flag ops acc = .ok md →
      ((∃ v ∈ ops, parseOpYaml v = .ok n) →
        alookup md n = some ⟨n, backend, flag⟩)
      ∧ ((∀ v ∈ ops, parseOpYaml v ≠ .ok n) →
        alookup md n = alookup acc n) := by
  intro ops
  induction ops with
  | nil =>
      intro acc md n h
      rw [insertMetadataList] at h
      injection h with h
      subst h
      exact ⟨fun hex => by simp at hex, fun _ => rfl⟩
  | cons v rest ih =>
      intro acc md n h
      rw [insertMetadataList] at h
      cases hv : parseOpYaml v with
      | error e => rw [hv] at h; exact absurd h (by simp)
      | ok n0 =>
          rw [hv] at h
          simp only at h
          constructor
          · intro hex
            by_cases hrest : ∃ w ∈ rest, parseOpYaml w = .ok n
            · exact (ih _ _ _ h).1 hrest
            · have hn0 : n0 = n := by
                rcases hex with ⟨w, hw, hwp⟩
                rcases List.mem_cons.mp hw with hw | hw
                · subst hw; rw [hv] at hwp; injection hwp
                · exact absurd ⟨w, hw, hwp⟩ hrest
              subst hn0
              have h2 := (ih _ _ _ h).2 fun w hw hwp => hrest ⟨w, hw, hwp⟩
              rw [h2, alookup_dinsert_self]
          · intro hall
            have hne : n ≠ n0 := by
              intro hn
              exact hall v (List.mem_cons_self _ _) (by
                rw [hv, hn])
            have h2 := (ih _ _ _ h).2 fun w hw => hall w (List.mem_cons_of_mem _ hw)
            rw [h2, alookup_dinsert_ne _ _ hne]

theorem insertMetadataList_dom (backend : YamlVal) (flag : Bool) :
    ∀ (ops : List YamlVal) (acc md : MetadataMap),
      insertMetadataList backend flag ops acc = .ok md →
      ∀ p ∈ md, (∃ v ∈ ops, parseOpYaml v = .ok p.1) ∨ p ∈ acc := by
  intro ops
  induction ops with
  | nil =>
      intro acc md h p hp
      rw [insertMetadataList] at h
      injection h with h
      subst h
      exact Or.inr hp
  | cons v rest ih =>
      intro acc md h p hp
      rw [insertMetadataList] at h
      cases hv : parseOpYaml v with
      | error e => rw [hv] at h; exact absurd h (by simp)
      | ok n0 =>
          rw [hv] at h
          simp only at h
          rcases ih _ _ h p hp with hr | hr
          · rcases hr with ⟨w, hw, hwp⟩
            exact Or.inl ⟨w, List.mem_cons_of_mem _ hw, hwp⟩
          · rcases mem_dinsert hr with hr | hr
            · refine Or.inl ⟨v, List.mem_cons_self _ _, ?_⟩
              rw [hv, hr]
            · exact Or.inr hr

theorem findInvalidOp_none (metadata : MetadataMap)
    (nmap : List (OperatorName × NativeFunction))
    (h : ∀ p ∈ metadata, (alookup nmap p.1).isSome = true) :
    findInvalidOp metadata nmap = none := by
  induction metadata with
  | nil => rfl
  | cons p rest ih =>
      obtain ⟨k, m⟩ := p
      rw [findInvalidOp, if_pos]
      · exact ih fun q hq => h q (List.mem_cons_of_mem _ hq)
      · exact h (k, m) (List.mem_cons_self _ _)

theorem findInvalidOp_some {metadata : MetadataMap}
    {nmap : List (OperatorName × NativeFunction)} {op : OperatorName}
    (h : findInvalidOp metadata nmap = some op) :
    alookup nmap op = none ∧ ∃ m, (op, m) ∈ metadata := by
  induction metadata with
  | nil => simp [findInvalidOp] at h
  | cons p rest ih =>
      obtain ⟨k, m⟩ := p
      rw [findInvalidOp] at h
      by_cases hk : (alookup nmap k).isSome = true
      · rw [if_pos hk] at h
        obtain ⟨h1, m2, h2⟩ := ih h
        exact ⟨h1, m2, List.mem_cons_of_mem _ h2⟩
      · rw [if_neg hk] at h
        injection h with h
        subst h
        refine ⟨?_, m, List.mem_cons_self _ _⟩
        cases halo : alookup nmap k with
        | none => rfl
        | some f => rw [halo] at hk; simp at hk

theorem findInvalidOp_finds {metadata : MetadataMap}
    {nmap : List (OperatorName × NativeFunction)} {n : OperatorName}
    {m : ExternalBackendMetadata}
    (hmem : (n, m) ∈ metadata) (hnone : alookup nmap n = none) :
    ∃ op, findInvalidOp metadata nmap = some op := by
  induction metadata with
  | nil => simp at hmem
  | cons p rest ih =>
      obtain ⟨k, m2⟩ := p
      by_cases hk : (alookup nmap k).isSome = true
      · rcases List.mem_cons.mp hmem with hmem | hmem
        · injection hmem with h1 h2
          subst h1
          rw [hnone] at hk
          simp at hk
        · obtain ⟨op, hop⟩ := ih hmem
          exact ⟨op, by rw [findInvalidOp, if_pos hk]; exact hop⟩
      · exact ⟨k, by rw [findInvalidOp, if_neg hk]⟩

/-- The registry entry underlying a resolved entry: drop the attached
metadata, slot by slot for a group. -/
def ExternalEntry.underlyingNative : ExternalEntry → RegistryEntry
  | .function f => .function f.native
  | .group g =>
      .group
        ⟨g.functional.map fun f => f.native,
         g.inplace.map fun f => f.native,
         g.out.map fun f => f.native⟩

theorem underlyingNative_native_to_external (metadata : MetadataMap)
    (g : RegistryEntry) :
    (native_to_external metadata g).underlyingNative = g := by
  cases g with
  | function f => rfl
  | group g =>
      obtain ⟨gf, gi, go⟩ := g
      simp [native_to_external, ExternalBackendFunctionsGroup.from_function_group,
        ExternalEntry.underlyingNative, Option.map_map]
      refine ⟨?_, ?_, ?_⟩ <;> cases gf <;> cases gi <;> cases go <;> rfl

/-- C10: for every backend declaration whose top-level YAML document is
not a mapping (a list, scalar, boolean, integer or empty/null
document), `parse_backend_yaml` fails with the translation of the
`assert isinstance(yaml_values, dict)` failure, before reading any of
the required fields (the result is the same for every registry). -/
theorem claim_C10_not_a_mapping (v : YamlVal) (reg : List RegistryEntry)
    (h : v.isMap = false) :
    parse_backend_yaml v reg = .error .assertionNotDict := by
  cases v <;> first
    | rfl
    | simp [YamlVal.isMap] at h

/-- C10 witness: the assertion fires on a list document. -/
theorem claim_C10_not_a_mapping_witness :
    YamlVal.isMap (.list []) = false ∧
      parse_backend_yaml (.list []) [] = .error .assertionNotDict :=
  ⟨rfl, claim_C10_not_a_mapping (.list []) [] rfl⟩

/-- A backend declaration whose `cpp_namespace` field is a list rather
than a string: every required field is present, but one is not of the
expected shape. -/
def c7decl : YamlVal :=
  .map [(cppNamespaceKey, .list []), (backendKey, .str ['X']),
        (supportedKey, .list []), (autogradKey, .list [])]

/-- C7 counterexample: on a declaration whose `cpp_namespace` field has
the wrong shape (a list, not a string), `parse_backend_yaml` succeeds
and raises no error at all, so the claim that wrong-shaped fields fail
with `MalformedDeclarationError` is false: the source never validates
field shapes, it only indexes the four keys. -/
theorem claim_C7_counterexample :
    parse_backend_yaml c7decl [] = .ok (.list [], []) ∧
      ∀ e, parse_backend_yaml c7decl [] ≠ .error e := by
  have h : parse_backend_yaml c7decl [] = .ok (.list [], []) := rfl
  exact ⟨h, fun e he => by rw [h] at he; exact Except.noConfusion he⟩

/-- C7 as amended: for every backend declaration missing one of the
four required fields, `parse_backend_yaml` fails with the
`MalformedDeclarationError` embedding of the key lookup failure,
naming one of the required fields, before any resolution (the result
is the same for every registry); field shapes are not separately
validated. -/
theorem claim_C7_missing_field (kvs : List (List Char × YamlVal))
    (reg : List RegistryEntry)
    (h : alookup kvs cppNamespaceKey = none ∨ alookup kvs backendKey = none ∨
      alookup kvs supportedKey = none ∨ alookup kvs autogradKey = none) :
    ∃ fld, parse_backend_yaml (.map kvs) reg =
        .error (.malformedDeclaration fld) ∧
      (fld = cppNamespaceKey ∨ fld = backendKey ∨ fld = supportedKey ∨
        fld = autogradKey) := by
  rw [show parse_backend_yaml (.map kvs) reg = parseFields kvs reg from rfl]
  cases hc : alookup kvs cppNamespaceKey with
  | none =>
      refine ⟨cppNamespaceKey, ?_, Or.inl rfl⟩
      simp [parseFields, yget, hc, ebind_error]
  | some v1 =>
      cases hb : alookup kvs backendKey with
      | none =>
          refine ⟨backendKey, ?_, Or.inr (Or.inl rfl)⟩
          simp [parseFields, yget, hc, hb, ebind_ok, ebind_error]
      | some v2 =>
          cases hs : alookup kvs supportedKey with
          | none =>
              refine ⟨supportedKey, ?_, Or.inr (Or.inr (Or.inl rfl))⟩
              simp [parseFields, yget, hc, hb, hs, ebind_ok, ebind_error]
          | some v3 =>
              cases ha : alookup kvs autogradKey with
              | none =>
                  refine ⟨autogradKey, ?_, Or.inr (Or.inr (Or.inr rfl))⟩
                  simp [parseFields, yget, hc, hb, hs, ha, ebind_ok, ebind_error]
              | some v4 =>
                  rw [hc, hb, hs, ha] at h
                  rcases h with h | h | h | h <;> exact absurd h (by simp)

/-- C7 witness for the amended claim: the empty mapping is missing
every required field and fails with a `MalformedDeclarationError`. -/
theorem claim_C7_missing_field_witness :
    ∃ fld, parse_backend_yaml (.map []) [] =
        .error (.malformedDeclaration fld) ∧
      (fld = cppNamespaceKey ∨ fld = backendKey ∨ fld = supportedKey ∨
        fld = autogradKey) :=
  claim_C7_missing_field [] [] (Or.inl rfl)

/-- C4: resolution of a single registry entry. A standalone function
becomes an `ExternalBackendFunction` whose metadata is the metadata
mapping's lookup of its operator name (so `none` exactly when the
backend did not declare it); a group becomes an
`ExternalBackendFunctionsGroup` with the same variant slots, each
present variant independently resolved against the mapping. -/
theorem claim_C4_per_entry_resolution (metadata : MetadataMap) :
    (∀ f : NativeFunction,
      native_to_external metadata (.function f) =
        .function ⟨f, alookup metadata f.func.name⟩)
    ∧ ∀ g : NativeFunctionsGroup,
        ∃ eg : ExternalBackendFunctionsGroup,
          native_to_external metadata (.group g) = .group eg
          ∧ eg.functional =
              g.functional.map (fun f => ⟨f, alookup metadata f.func.name⟩)
          ∧ eg.inplace =
              g.inplace.map (fun f => ⟨f, alookup metadata f.func.name⟩)
          ∧ eg.out =
              g.out.map (fun f => ⟨f, alookup metadata f.func.name⟩) :=
  ⟨fun _ => rfl, fun g =>
    ⟨ExternalBackendFunctionsGroup.from_function_group g metadata,
      rfl, rfl, rfl, rfl⟩⟩

/-- Statement of the spec's registration rule, written from the spec's
words for comparison with the pipeline's lists: one registration
fragment per entry whose metadata is present and whose autograd flag
equals `flag`, in input order, and nothing for the other entries. -/
def registrationFragmentsSpec (flag : Bool)
    (fs : List ExternalBackendFunction) : List Fragment :=
  fs.filterMap fun f =>
    match f.metadata with
    | some m =>
        if m.is_autograd = flag then
          some (.registration f.native.func.name m)
        else none
    | none => none

theorem dispatch_registrations_cons (e : ExternalEntry) (l : List ExternalEntry) :
    dispatch_registrations (e :: l) =
      (if e.is_autograd_kernel = false then
        GenExternalAtenFallback .REGISTRATION e
      else []) ++ dispatch_registrations l := by
  by_cases h : e.is_autograd_kernel = false <;>
    simp [dispatch_registrations, List.filter_cons, h, concatMap]

theorem dispatch_autograd_registrations_cons (e : ExternalEntry)
    (l : List ExternalEntry) :
    dispatch_autograd_registrations (e :: l) =
      (if e.is_autograd_kernel = true then
        GenExternalAtenFallback .REGISTRATION e
      else []) ++ dispatch_autograd_registrations l := by
  by_cases h : e.is_autograd_kernel = true <;>
    simp [dispatch_autograd_registrations, List.filter_cons, h, concatMap]

theorem dispatch_registrations_function (fs : List ExternalBackendFunction) :
    dispatch_registrations (fs.map ExternalEntry.function) =
      registrationFragmentsSpec false fs := by
  induction fs with
  | nil => rfl
  | cons f rest ih =>
      rw [List.map_cons, dispatch_registrations_cons, ih]
      cases hm : f.metadata with
      | none =>
          simp [ExternalEntry.is_autograd_kernel,
            ExternalBackendFunction.is_autograd_kernel, hm,
            GenExternalAtenFallback, genUnstructuredExternal,
            registrationFragmentsSpec, List.filterMap_cons]
      | some m =>
          cases hb : m.is_autograd <;>
            simp [ExternalEntry.is_autograd_kernel,
              ExternalBackendFunction.is_autograd_kernel, hm, hb,
              GenExternalAtenFallback, genUnstructuredExternal,
              registrationFragmentsSpec, List.filterMap_cons]

theorem dispatch_autograd_registrations_function
    (fs : List ExternalBackendFunction) :
    dispatch_autograd_registrations (fs.map ExternalEntry.function) =
      registrationFragmentsSpec true fs := by
  induction fs with
  | nil => rfl
  | cons f rest ih =>
      rw [List.map_cons, dispatch_autograd_registrations_cons, ih]
      cases hm : f.metadata with
      | none =>
          simp [ExternalEntry.is_autograd_kernel,
            ExternalBackendFunction.is_autograd_kernel, hm,
            GenExternalAtenFallback, genUnstructuredExternal,
            registrationFragmentsSpec, List.filterMap_cons]
      | some m =>
          cases hb : m.is_autograd <;>
            simp [ExternalEntry.is_autograd_kernel,
              ExternalBackendFunction.is_autograd_kernel, hm, hb,
              GenExternalAtenFallback, genUnstructuredExternal,
              registrationFragmentsSpec, List.filterMap_cons]

theorem registrationFragmentsSpec_length (fs : List ExternalBackendFunction) :
    (registrationFragmentsSpec false fs).length +
      (registrationFragmentsSpec true fs).length =
    (fs.filter fun f => f.metadata.isSome).length := by
  induction fs with
  | nil => rfl
  | cons f rest ih =>
      cases hm : f.metadata with
      | none =>
          simp [registrationFragmentsSpec, List.filterMap_cons, hm,
            List.filter_cons]
          simpa [registrationFragmentsSpec] using ih
      | some m =>
          cases hb : m.is_autograd <;>
            · simp [registrationFragmentsSpec, List.filterMap_cons, hm, hb,
                List.filter_cons]
              simp only [registrationFragmentsSpec] at ih
              omega

theorem registrationFragmentsSpec_mem {flag : Bool}
    {fs : List ExternalBackendFunction} {fr : Fragment}
    (h : fr ∈ registrationFragmentsSpec flag fs) :
    ∃ nm m, fr = Fragment.registration nm m ∧ m.is_autograd = flag := by
  rw [registrationFragmentsSpec] at h
  rcases List.mem_filterMap.mp h with ⟨f, _, hf⟩
  cases hm : f.metadata with
  | none => rw [hm] at hf; exact absurd hf (by simp)
  | some m =>
      rw [hm] at hf
      simp only at hf
      by_cases hb : m.is_autograd = flag
      · rw [if_pos hb] at hf
        injection hf with hf
        exact ⟨f.native.func.name, m, hf.symm, hb⟩
      · rw [if_neg hb] at hf
        exact absurd hf (by simp)

/-- C3: over resolved standalone-function entries, the registration
lists of the emission driver are exactly the spec's partition: the
plain list holds one fragment per metadata-present non-autograd entry,
the autograd list one fragment per metadata-present autograd entry
(each in input order), the two lists together hold exactly one
fragment per metadata-present entry (so `None`-metadata entries
produce none), and no fragment lies in both lists. -/
theorem claim_C3_registration_partition (fs : List ExternalBackendFunction) :
    dispatch_registrations (fs.map ExternalEntry.function) =
      registrationFragmentsSpec false fs
    ∧ dispatch_autograd_registrations (fs.map ExternalEntry.function) =
      registrationFragmentsSpec true fs
    ∧ (dispatch_registrations (fs.map ExternalEntry.function)).length +
        (dispatch_autograd_registrations (fs.map ExternalEntry.function)).length =
      (fs.filter fun f => f.metadata.isSome).length
    ∧ ∀ fr, fr ∈ dispatch_registrations (fs.map ExternalEntry.function) →
        fr ∉ dispatch_autograd_registrations (fs.map ExternalEntry.function) := by
  refine ⟨dispatch_registrations_function fs,
    dispatch_autograd_registrations_function fs, ?_, ?_⟩
  · rw [dispatch_registrations_function fs,
      dispatch_autograd_registrations_function fs]
    exact registrationFragmentsSpec_length fs
  · intro fr h1 h2
    rw [dispatch_registrations_function fs] at h1
    rw [dispatch_autograd_registrations_function fs] at h2
    obtain ⟨nm1, m1, he1, hb1⟩ := registrationFragmentsSpec_mem h1
    obtain ⟨nm2, m2, he2, hb2⟩ := registrationFragmentsSpec_mem h2
    rw [he1] at he2
    injection he2 with hn hm
    rw [hm] at hb1
    rw [hb1] at hb2
    exact Bool.noConfusion hb2

/-- The operator name `a::f`, used by concrete counterexamples and
witnesses. -/
def c5op : OperatorName := ⟨['a'], ['f'], none⟩

/-- The text `a::f`. -/
def c5text : List Char := ['a', ':', ':', 'f']

/-- A concrete backend identifier value. -/
def c5backend : YamlVal := .str ['X']

/-- C5 counterexample: when the operator `a::f` is listed in both
`supported` and `autograd`, the metadata loops of `parse_backend_yaml`
succeed and the final mapping gives `a::f` the metadata with
`is_autograd = true`, not the `is_autograd = false` entry the claim
promises for every name on the `supported` list. -/
theorem claim_C5_counterexample :
    insertMetadataList c5backend false [.str c5text] [] =
      .ok [(c5op, ⟨c5op, c5backend, false⟩)]
    ∧ insertMetadataList c5backend true [.str c5text]
        [(c5op, ⟨c5op, c5backend, false⟩)] =
      .ok [(c5op, ⟨c5op, c5backend, true⟩)]
    ∧ alookup [(c5op, (⟨c5op, c5backend, true⟩ : ExternalBackendMetadata))]
        c5op = some ⟨c5op, c5backend, true⟩
    ∧ alookup [(c5op, (⟨c5op, c5backend, true⟩ : ExternalBackendMetadata))]
        c5op ≠ some ⟨c5op, c5backend, false⟩ := by
  refine ⟨rfl, rfl, rfl, fun h => ?_⟩
  injection h with h
  have h2 := congrArg ExternalBackendMetadata.is_autograd h
  simp at h2

/-- C5 as amended: the metadata mapping built by the two loops of
`parse_backend_yaml` is keyed by parsed operator name, every entry
carries the declaration's raw `backend` value, names from the
`autograd` list map to `is_autograd = true`, and names from the
`supported` list map to `is_autograd = false` unless the same name
also appears in the `autograd` list, whose later insertion overwrites
the flag to `true`; names on neither list are absent. -/
theorem claim_C5_metadata_mapping (backend : YamlVal)
    (supElems autoElems : List YamlVal) (md1 md : MetadataMap)
    (n : OperatorName)
    (h1 : insertMetadataList backend false supElems [] = .ok md1)
    (h2 : insertMetadataList backend true autoElems md1 = .ok md) :
    ((∃ v ∈ autoElems, parseOpYaml v = .ok n) →
      alookup md n = some ⟨n, backend, true⟩)
    ∧ ((∀ v ∈ autoElems, parseOpYaml v ≠ .ok n) →
        (∃ v ∈ supElems, parseOpYaml v = .ok n) →
        alookup md n = some ⟨n, backend, false⟩)
    ∧ ((∀ v ∈ supElems ++ autoElems, parseOpYaml v ≠ .ok n) →
        alookup md n = none)
    ∧ ∀ m, alookup md n = some m → m.operator = n ∧ m.backend = backend := by
  have hfst := insertMetadataList_lookup backend false supElems [] md1 n h1
  have hsnd := insertMetadataList_lookup backend true autoElems md1 md n h2
  refine ⟨hsnd.1, ?_, ?_, ?_⟩
  · intro hnone hsup
    rw [hsnd.2 hnone]
    exact hfst.1 hsup
  · intro hall
    rw [hsnd.2 fun v hv => hall v (List.mem_append_right _ hv)]
    rw [hfst.2 fun v hv => hall v (List.mem_append_left _ hv)]
    rfl
  · intro m hm
    by_cases hauto : ∃ v ∈ autoElems, parseOpYaml v = .ok n
    · rw [hsnd.1 hauto] at hm
      injection hm with hm
      rw [← hm]
      exact ⟨rfl, rfl⟩
    · rw [hsnd.2 fun v hv hvp => hauto ⟨v, hv, hvp⟩] at hm
      by_cases hsup : ∃ v ∈ supElems, parseOpYaml v = .ok n
      · rw [hfst.1 hsup] at hm
        injection hm with hm
        rw [← hm]
        exact ⟨rfl, rfl⟩
      · rw [hfst.2 fun v hv hvp => hsup ⟨v, hv, hvp⟩] at hm
        exact absurd hm (by simp [alookup])

/-- C5 witness for the amended claim: the two loops run on a
declaration whose `supported` list is `[a::f]` and whose `autograd`
list is empty, and the mapping behaves as characterized. -/
theorem claim_C5_metadata_mapping_witness :
    ((∃ v ∈ ([] : List YamlVal), parseOpYaml v = .ok c5op) →
      alookup [(c5op, (⟨c5op, c5backend, false⟩ : ExternalBackendMetadata))]
        c5op = some ⟨c5op, c5backend, true⟩)
    ∧ ((∀ v ∈ ([] : List YamlVal), parseOpYaml v ≠ .ok c5op) →
        (∃ v ∈ [YamlVal.str c5text], parseOpYaml v = .ok c5op) →
        alookup [(c5op, (⟨c5op, c5backend, false⟩ : ExternalBackendMetadata))]
          c5op = some ⟨c5op, c5backend, false⟩)
    ∧ ((∀ v ∈ [YamlVal.str c5text] ++ ([] : List YamlVal),
          parseOpYaml v ≠ .ok c5op) →
        alookup [(c5op, (⟨c5op, c5backend, false⟩ : ExternalBackendMetadata))]
          c5op = none)
    ∧ ∀ m, alookup [(c5op, (⟨c5op, c5backend, false⟩ : ExternalBackendMetadata))]
          c5op = some m → m.operator = c5op ∧ m.backend = c5backend :=
  claim_C5_metadata_mapping c5backend [.str c5text] [] _ _ c5op rfl rfl

/-- C6: when an operator name appears in both the `supported` and the
`autograd` lists, both metadata loops still succeed (no error or
diagnostic is raised for the duplicate) and the final mapping holds
the later assignment: the entry for that operator has
`is_autograd = true`, because the `autograd` list is processed second
and its insertion silently overwrites the `supported` one. -/
theorem claim_C6_duplicate_overwrite (backend : YamlVal)
    (supElems autoElems : List YamlVal) (n : OperatorName)
    (hok : ∀ v ∈ supElems ++ autoElems, okBool (parseOpYaml v) = true)
    (_hsup : ∃ v ∈ supElems, parseOpYaml v = .ok n)
    (hauto : ∃ v ∈ autoElems, parseOpYaml v = .ok n) :
    ∃ md1 md, insertMetadataList backend false supElems [] = .ok md1
      ∧ insertMetadataList backend true autoElems md1 = .ok md
      ∧ alookup md n = some ⟨n, backend, true⟩ := by
  obtain ⟨md1, h1⟩ := insertMetadataList_ok backend false supElems []
    fun v hv => hok v (List.mem_append_left _ hv)
  obtain ⟨md, h2⟩ := insertMetadataList_ok backend true autoElems md1
    fun v hv => hok v (List.mem_append_right _ hv)
  exact ⟨md1, md, h1, h2,
    (insertMetadataList_lookup backend true autoElems md1 md n h2).1 hauto⟩

/-- C6 witness: the operator `a::f` listed in both `supported` and
`autograd`; the loops succeed and the final flag is `true`. -/
theorem claim_C6_duplicate_overwrite_witness :
    ∃ md1 md, insertMetadataList c5backend false [.str c5text] [] = .ok md1
      ∧ insertMetadataList c5backend true [.str c5text] md1 = .ok md
      ∧ alookup md c5op = some ⟨c5op, c5backend, true⟩ :=
  claim_C6_duplicate_overwrite c5backend [.str c5text] [.str c5text] c5op
    (by decide)
    ⟨.str c5text, List.mem_cons_self _ _, rfl⟩
    ⟨.str c5text, List.mem_cons_self _ _, rfl⟩

/-- C2: when the backend declaration is a well-formed mapping and every
name listed in `supported` or `autograd` parses and exists in the
canonical registry map, `parse_backend_yaml` succeeds and returns
exactly one resolved external entry per registry entry, the i-th
resolved entry resolving the i-th registry entry, so in the same order
as the input registry sequence. -/
theorem claim_C2_resolution_order (kvs : List (List Char × YamlVal))
    (reg : List RegistryEntry) (nsv bk supv autov : YamlVal)
    (supElems autoElems : List YamlVal)
    (hns : alookup kvs cppNamespaceKey = some nsv)
    (hbk : alookup kvs backendKey = some bk)
    (hsup : alookup kvs supportedKey = some supv)
    (hauto : alookup kvs autogradKey = some autov)
    (hsupIter : iterElems supv = .ok supElems)
    (hautoIter : iterElems autov = .ok autoElems)
    (hok : ∀ v ∈ supElems ++ autoElems, okBool (parseOpYaml v) = true)
    (hreg : ∀ v ∈ supElems ++ autoElems,
      opInRegistry (native_functions_map reg) v = true) :
    ∃ es, parse_backend_yaml (.map kvs) reg = .ok (nsv, es)
      ∧ es.length = reg.length
      ∧ ∀ i (hi : i < es.length) (hr : i < reg.length),
          (es.get ⟨i, hi⟩).underlyingNative = reg.get ⟨i, hr⟩ := by
  obtain ⟨md1, h1⟩ := insertMetadataList_ok bk false supElems []
    fun v hv => hok v (List.mem_append_left _ hv)
  obtain ⟨md, h2⟩ := insertMetadataList_ok bk true autoElems md1
    fun v hv => hok v (List.mem_append_right _ hv)
  have hyns : yget kvs cppNamespaceKey = .ok nsv := by rw [yget, hns]
  have hybk : yget kvs backendKey = .ok bk := by rw [yget, hbk]
  have hysup : yget kvs supportedKey = .ok supv := by rw [yget, hsup]
  have hyauto : yget kvs autogradKey = .ok autov := by rw [yget, hauto]
  have hvalid : findInvalidOp md (native_functions_map reg) = none := by
    apply findInvalidOp_none
    intro p hp
    have helem : ∃ v ∈ supElems ++ autoElems, parseOpYaml v = .ok p.1 := by
      rcases insertMetadataList_dom bk true autoElems md1 md h2 p hp with
        ⟨v, hv, hvp⟩ | hmem1
      · exact ⟨v, List.mem_append_right _ hv, hvp⟩
      · rcases insertMetadataList_dom bk false supElems [] md1 h1 p hmem1 with
          ⟨v, hv, hvp⟩ | habs
        · exact ⟨v, List.mem_append_left _ hv, hvp⟩
        · simp at habs
    rcases helem with ⟨v, hv, hvp⟩
    simpa [opInRegistry, hvp] using hreg v hv
  refine ⟨reg.map (native_to_external md), ?_, by simp, ?_⟩
  · rw [show parse_backend_yaml (.map kvs) reg = parseFields kvs reg from rfl]
    simp only [parseFields, hyns, hybk, hysup, hyauto, hsupIter, h1,
      hautoIter, h2, ebind_ok, hvalid]
  · intro i hi hr
    simp [List.get_eq_getElem, List.getElem_map,
      underlyingNative_native_to_external]

/-- The registry entry `a::f` used by the concrete witnesses. -/
def w2fn : NativeFunction := ⟨⟨c5op, []⟩⟩

/-- A one-entry registry holding `a::f`. -/
def w2reg : List RegistryEntry := [.function w2fn]

/-- A well-formed backend declaration mapping: namespace `n`, backend
`X`, `supported: [a::f]`, `autograd: []`. -/
def w2kvs : List (List Char × YamlVal) :=
  [(cppNamespaceKey, .str ['n']), (backendKey, c5backend),
   (supportedKey, .list [.str c5text]), (autogradKey, .list [])]

/-- C2 witness: the success theorem applied to the concrete one-entry
registry and the declaration supporting exactly that operator. -/
theorem claim_C2_resolution_order_witness :
    ∃ es, parse_backend_yaml (.map w2kvs) w2reg = .ok (.str ['n'], es)
      ∧ es.length = w2reg.length
      ∧ ∀ i (hi : i < es.length) (hr : i < w2reg.length),
          (es.get ⟨i, hi⟩).underlyingNative = w2reg.get ⟨i, hr⟩ :=
  claim_C2_resolution_order w2kvs w2reg (.str ['n']) c5backend
    (.list [.str c5text]) (.list []) [.str c5text] []
    rfl rfl rfl rfl rfl rfl (by decide) (by decide)

/-- C1: when the backend declaration is a well-formed mapping whose
listed names all parse but some listed operator is absent from the
canonical registry map, `parse_backend_yaml` fails with
`UnknownOperatorError` naming an offending operator (one declared in
the lists and absent from the registry), `main` propagates the same
failure, and no output artifact is written: the failure occurs before
any of the three `fm.write` calls. -/
theorem claim_C1_unknown_operator_aborts (kvs : List (List Char × YamlVal))
    (reg : List RegistryEntry) (nsv bk supv autov : YamlVal)
    (supElems autoElems : List YamlVal)
    (hns : alookup kvs cppNamespaceKey = some nsv)
    (hbk : alookup kvs backendKey = some bk)
    (hsup : alookup kvs supportedKey = some supv)
    (hauto : alookup kvs autogradKey = some autov)
    (hsupIter : iterElems supv = .ok supElems)
    (hautoIter : iterElems autov = .ok autoElems)
    (hok : ∀ v ∈ supElems ++ autoElems, okBool (parseOpYaml v) = true)
    (hbad : ∃ v ∈ supElems ++ autoElems,
      opInRegistry (native_functions_map reg) v = false) :
    ∃ op, parse_backend_yaml (.map kvs) reg = .error (.unknownOperator op)
      ∧ alookup (native_functions_map reg) op = none
      ∧ (∃ v ∈ supElems ++ autoElems, parseOpYaml v = .ok op)
      ∧ main_codegen (.map kvs) reg = .error (.unknownOperator op)
      ∧ artifacts_written (main_codegen (.map kvs) reg) = [] := by
  obtain ⟨md1, h1⟩ := insertMetadataList_ok bk false supElems []
    fun v hv => hok v (List.mem_append_left _ hv)
  obtain ⟨md, h2⟩ := insertMetadataList_ok bk true autoElems md1
    fun v hv => hok v (List.mem_append_right _ hv)
  have hyns : yget kvs cppNamespaceKey = .ok nsv := by rw [yget, hns]
  have hybk : yget kvs backendKey = .ok bk := by rw [yget, hbk]
  have hysup : yget kvs supportedKey = .ok supv := by rw [yget, hsup]
  have hyauto : yget kvs autogradKey = .ok autov := by rw [yget, hauto]
  rcases hbad with ⟨v, hv, hvbad⟩
  obtain ⟨nb, hnb⟩ := (okBool_iff _).mp (hok v hv)
  have hnone : alookup (native_functions_map reg) nb = none := by
    simp only [opInRegistry, hnb] at hvbad
    cases halo : alookup (native_functions_map reg) nb with
    | none => rfl
    | some f => rw [halo] at hvbad; simp at hvbad
  have hlook : ∃ mm, alookup md nb = some mm := by
    rcases List.mem_append.mp hv with hvs | hva
    · by_cases hex : ∃ w ∈ autoElems, parseOpYaml w = .ok nb
      · exact ⟨_, (insertMetadataList_lookup bk true autoElems md1 md nb h2).1 hex⟩
      · have e2 := (insertMetadataList_lookup bk true autoElems md1 md nb h2).2
          fun w hw hwp => hex ⟨w, hw, hwp⟩
        have e1 := (insertMetadataList_lookup bk false supElems [] md1 nb h1).1
          ⟨v, hvs, hnb⟩
        exact ⟨_, by rw [e2, e1]⟩
    · exact ⟨_, (insertMetadataList_lookup bk true autoElems md1 md nb h2).1
        ⟨v, hva, hnb⟩⟩
  rcases hlook with ⟨mm, hmm⟩
  obtain ⟨op, hop⟩ := findInvalidOp_finds (alookup_mem hmm) hnone
  obtain ⟨hopnone, mop, hopmem⟩ := findInvalidOp_some hop
  have hopelem : ∃ w ∈ supElems ++ autoElems, parseOpYaml w = .ok op := by
    rcases insertMetadataList_dom bk true autoElems md1 md h2 (op, mop) hopmem with
      ⟨w, hw, hwp⟩ | hmem1
    · exact ⟨w, List.mem_append_right _ hw, hwp⟩
    · rcases insertMetadataList_dom bk false supElems [] md1 h1 (op, mop) hmem1 with
        ⟨w, hw, hwp⟩ | habs
      · exact ⟨w, List.mem_append_left _ hw, hwp⟩
      · simp at habs
  have hpbe : parse_backend_yaml (.map kvs) reg = .error (.unknownOperator op) := by
    rw [show parse_backend_yaml (.map kvs) reg = parseFields kvs reg from rfl]
    simp only [parseFields, hyns, hybk, hysup, hyauto, hsupIter, h1,
      hautoIter, h2, ebind_ok, hop]
  have hmain : main_codegen (.map kvs) reg = .error (.unknownOperator op) := by
    rw [main_codegen, hpbe]
  exact ⟨op, hpbe, hopnone, hopelem, hmain, by rw [artifacts_written.eq_def, hmain]⟩

/-- C1 witness: the declaration supports `a::f` but the registry is
empty, so resolution fails with `UnknownOperatorError` for `a::f` and
no artifact is written. -/
theorem claim_C1_unknown_operator_aborts_witness :
    ∃ op, parse_backend_yaml (.map w2kvs) [] = .error (.unknownOperator op)
      ∧ alookup (native_functions_map []) op = none
      ∧ (∃ v ∈ [YamlVal.str c5text] ++ ([] : List YamlVal),
          parseOpYaml v = .ok op)
      ∧ main_codegen (.map w2kvs) [] = .error (.unknownOperator op)
      ∧ artifacts_written (main_codegen (.map w2kvs) []) = [] :=
  claim_C1_unknown_operator_aborts w2kvs [] (.str ['n']) c5backend
    (.list [.str c5text]) (.list []) [.str c5text] []
    rfl rfl rfl rfl rfl rfl (by decide) (by decide)

/-- C9: generation is deterministic. The embedded pipeline is a pure
function of the registry and the backend declaration, so any two runs
over identical inputs produce identical results, and in particular
byte-identical artifact lists; fragment ordering is fully determined
by the input order, as the order-characterizing theorems for the other
claims show. -/
theorem claim_C9_deterministic (decl : YamlVal) (reg : List RegistryEntry)
    (r1 r2 : Except GenError (List OutputFile))
    (h1 : main_codegen decl reg = r1) (h2 : main_codegen decl reg = r2) :
    r1 = r2 :=
  h1.symm.trans h2

/-- C9 witness: a concrete full run, with the three artifacts written
out explicitly; determinism applied to both runs identifies the run's
result with this value. -/
theorem claim_C9_deterministic_witness :
    main_codegen (.map w2kvs) w2reg =
      .ok [⟨atenXlaTypeH, .str ['n'],
            [[.declaration c5op]]⟩,
           ⟨atenXlaTypeDefaultH, .str ['n'],
            [[.fallbackDeclaration c5op]]⟩,
           ⟨atenXlaTypeDefaultCpp, .str ['n'],
            [[.fallbackDefinition c5op],
             [.registration c5op ⟨c5op, c5backend, false⟩],
             []]⟩] :=
  claim_C9_deterministic (.map w2kvs) w2reg _ _ rfl (by rfl)

/-- A concrete metadata mapping declaring `a::f` with autograd. -/
def c4meta : MetadataMap := [(c5op, ⟨c5op, c5backend, true⟩)]

/-- C4 witness: the per-entry resolution theorem applied to the
concrete metadata mapping `c4meta`. -/
theorem claim_C4_per_entry_resolution_witness :
    (∀ f : NativeFunction,
      native_to_external c4meta (.function f) =
        .function ⟨f, alookup c4meta f.func.name⟩)
    ∧ ∀ g : NativeFunctionsGroup,
        ∃ eg : ExternalBackendFunctionsGroup,
          native_to_external c4meta (.group g) = .group eg
          ∧ eg.functional =
              g.functional.map (fun f => ⟨f, alookup c4meta f.func.name⟩)
          ∧ eg.inplace =
              g.inplace.map (fun f => ⟨f, alookup c4meta f.func.name⟩)
          ∧ eg.out =
              g.out.map (fun f => ⟨f, alookup c4meta f.func.name⟩) :=
  claim_C4_per_entry_resolution c4meta

/-- A resolved entry the backend did not declare. -/
def w3none : ExternalBackendFunction := ⟨⟨⟨⟨['a'], ['p'], none⟩, []⟩⟩, none⟩

/-- A resolved entry the backend declared without autograd. -/
def w3plain : ExternalBackendFunction :=
  ⟨⟨⟨⟨['a'], ['q'], none⟩, []⟩⟩, some ⟨⟨['a'], ['q'], none⟩, c5backend, false⟩⟩

/-- A resolved entry the backend declared with autograd. -/
def w3auto : ExternalBackendFunction :=
  ⟨⟨⟨⟨['a'], ['r'], none⟩, []⟩⟩, some ⟨⟨['a'], ['r'], none⟩, c5backend, true⟩⟩

/-- The three-entry list mixing all metadata cases. -/
def w3fs : List ExternalBackendFunction := [w3none, w3plain, w3auto]

/-- C3 witness: the partition theorem applied to the concrete
three-entry list mixing an undeclared, a plain and an autograd
entry. -/
theorem claim_C3_registration_partition_witness :
    dispatch_registrations (w3fs.map ExternalEntry.function) =
      registrationFragmentsSpec false w3fs
    ∧ dispatch_autograd_registrations (w3fs.map ExternalEntry.function) =
      registrationFragmentsSpec true w3fs
    ∧ (dispatch_registrations (w3fs.map ExternalEntry.function)).length +
        (dispatch_autograd_registrations (w3fs.map ExternalEntry.function)).length =
      (w3fs.filter fun f => f.metadata.isSome).length
    ∧ ∀ fr, fr ∈ dispatch_registrations (w3fs.map ExternalEntry.function) →
        fr ∉ dispatch_autograd_registrations (w3fs.map ExternalEntry.function) :=
  claim_C3_registration_partition w3fs
